import Mathlib

/-!
Shallow embedding of `python/mlx/nn/losses.py`.

Tensors are modelled as a shape (list of dimension sizes) together with
row-major flat data.  The scalar type is kept abstract as a linearly
ordered field `α`; the host library primitives `mx.exp` and `mx.log` are
passed in as function parameters `rexp`/`rlog` (the intended instantiation
is `α := ℝ`, `rexp := Real.exp`, `rlog := Real.log`; none of the verified
properties depend on analytic facts about them, so everything is proved
for arbitrary `rexp`/`rlog`, which also keeps all definitions computable).

Python `assert`/`raise` failures are modelled by `Except String`.
-/

set_option autoImplicit false

namespace MlxLosses

variable {α : Type} [LinearOrderedField α]

/-- A tensor: the shape (dimension sizes) and row-major flat data,
mirroring the `mx.array` values flowing through the loss functions. -/
structure Tensor (α : Type) where
  shape : List Nat
  data : List α
deriving DecidableEq

/-- Well-formedness of a tensor: one data entry per position of the shape. -/
def Tensor.wf {β : Type} (t : Tensor β) : Prop := t.data.length = t.shape.prod

/-- Elementwise unary operation (shape preserved), e.g. `mx.log`, `mx.abs`,
scalar multiplication, or `1 - x` with a scalar on the left. -/
def Tensor.map {β γ : Type} (f : β → γ) (t : Tensor β) : Tensor γ :=
  ⟨t.shape, t.data.map f⟩

/-- Elementwise binary operation on two tensors of identical shape
(broadcasting between equal shapes is the identity, see `ewise_eq_zipT`). -/
def zipT {β : Type} (f : β → β → β) (a b : Tensor β) : Tensor β :=
  ⟨a.shape, List.zipWith f a.data b.data⟩

/-! ### Broadcasting (numpy-style, right-aligned), as provided by the host
array library.  Modelled from the spec: elementwise arithmetic supports
broadcasting between compatible shapes. -/

/-- Broadcast of a single pair of dimensions. -/
def bdim (a b : Nat) : Option Nat :=
  if a = b then some a else if a = 1 then some b else if b = 1 then some a else none

/-- Broadcast of two reversed shapes (least-significant dimension first). -/
def bshapeRev : List Nat → List Nat → Option (List Nat)
  | [], ys => some ys
  | xs, [] => some xs
  | x :: xs, y :: ys =>
    match bdim x y, bshapeRev xs ys with
    | some d, some rest => some (d :: rest)
    | _, _ => none

/-- Broadcast shape of two shapes, `none` when they are not broadcastable. -/
def bshape (xs ys : List Nat) : Option (List Nat) :=
  (bshapeRev xs.reverse ys.reverse).map List.reverse

/-- Flat source index corresponding to a flat output index, both given with
reversed shapes (least-significant dimension first). -/
def bindexRev : List Nat → List Nat → Nat → Nat
  | _, [], _ => 0
  | [], _ :: _, _ => 0
  | d :: ds, e :: es, m => bindexRev ds es (m / d) * e + (if e = 1 then 0 else m % d)

/-- Flat index into the source tensor of shape `srcShape` that a broadcast
elementwise operation with output shape `outShape` reads for output
position `m`. -/
def bindex (outShape srcShape : List Nat) (m : Nat) : Nat :=
  bindexRev outShape.reverse srcShape.reverse m

/-- Compatibility of a (reversed) source shape with a (reversed) output
shape: every source dimension is `1` or equal to the output dimension. -/
def bcompat : List Nat → List Nat → Prop
  | _, [] => True
  | [], _ :: _ => False
  | d :: ds, e :: es => (e = 1 ∨ e = d) ∧ bcompat ds es

/-- Elementwise binary operation with broadcasting; `none` when the shapes
are not broadcastable (the host library raises in that case). -/
def ewise {β : Type} [Zero β] (f : β → β → β) (a b : Tensor β) : Option (Tensor β) :=
  match bshape a.shape b.shape with
  | none => none
  | some s => some ⟨s, (List.range s.prod).map fun m =>
      f (a.data.getD (bindex s a.shape m) 0) (b.data.getD (bindex s b.shape m) 0)⟩

/-- Message for a failed broadcast (raised by the host array library). -/
def broadcastMsg : String := "Shapes are not broadcastable."

/-- `ewise` with the broadcast failure turned into an error, to compose with
the loss functions in the `Except` monad. -/
def ewiseE {β : Type} [Zero β] (f : β → β → β) (a b : Tensor β) : Except String (Tensor β) :=
  match ewise f a b with
  | some t => .ok t
  | none => .error broadcastMsg

/-! ### Axis bookkeeping for `logsumexp` / `mean` / `sum` along an axis and
for gather-along-axis. -/

/-- Normalize a possibly negative axis argument against a rank. -/
def normAxis (ndim : Nat) (ax : Int) : Nat :=
  (if ax < 0 then ax + ndim else ax).toNat

/-- Product of the dimensions strictly before axis `k`. -/
def outerSz (s : List Nat) (k : Nat) : Nat := (s.take k).prod

/-- The dimension at axis `k`. -/
def dimSz (s : List Nat) (k : Nat) : Nat := s.getD k 1

/-- Product of the dimensions strictly after axis `k`. -/
def innerSz (s : List Nat) (k : Nat) : Nat := (s.drop (k + 1)).prod

/-- The list of entries of `t` along axis `k` at outer position `o` and
inner position `i` (row-major indexing). -/
def sliceAt {β : Type} [Zero β] (t : Tensor β) (k o i : Nat) : List β :=
  (List.range (dimSz t.shape k)).map fun j =>
    t.data.getD ((o * dimSz t.shape k + j) * innerSz t.shape k + i) 0

/-- Reduction of a tensor along an axis by an aggregator `f` on the slices;
the reduced axis is removed from the shape.  Backs `mx.logsumexp`,
`mx.mean`, `mx.sum` with an `axis` argument. -/
def reduceAlong {β : Type} [Zero β] (f : List β → β) (t : Tensor β) (ax : Int) : Tensor β :=
  let k := normAxis t.shape.length ax
  ⟨t.shape.take k ++ t.shape.drop (k + 1),
    (List.range (outerSz t.shape k * innerSz t.shape k)).map fun m =>
      f (sliceAt t k (m / innerSz t.shape k) (m % innerSz t.shape k))⟩

/-- Modelled from the spec: the net effect of
`mx.take_along_axis(t, idx[..., None], axis).squeeze(-1)` — gather one
element per position along `axis` using the index tensor, removing that
axis (spec §4.2 and glossary entry for gather-along-axis). -/
def takeAlong {β : Type} [Zero β] (t : Tensor β) (idx : Tensor Nat) (ax : Int) : Tensor β :=
  let k := normAxis t.shape.length ax
  ⟨t.shape.take k ++ t.shape.drop (k + 1),
    (List.range (outerSz t.shape k * innerSz t.shape k)).map fun m =>
      t.data.getD
        (((m / innerSz t.shape k) * dimSz t.shape k + idx.data.getD m 0) * innerSz t.shape k
          + m % innerSz t.shape k) 0⟩

/-- `mx.logsumexp(t, axis)`: log of the sum of exponentials along the axis. -/
def logsumexp (rexp rlog : α → α) (t : Tensor α) (ax : Int) : Tensor α :=
  reduceAlong (fun l => rlog (l.map rexp).sum) t ax

/-- `t.mean(axis)`: mean along the axis. -/
def meanAlong (t : Tensor α) (ax : Int) : Tensor α :=
  reduceAlong (fun l => l.sum / (l.length : α)) t ax

/-- `mx.sum(t, axis)`: sum along the axis. -/
def sumAlong (t : Tensor α) (ax : Int) : Tensor α :=
  reduceAlong List.sum t ax

/-! ### The shared reduction helper and the loss functions. -/

/-- `mx.sum(t)` over all elements, a scalar (0-d) tensor. -/
def mxSum (t : Tensor α) : Tensor α := ⟨[], [t.data.sum]⟩

/-- `mx.mean(t)` over all elements, a scalar (0-d) tensor. -/
def mxMean (t : Tensor α) : Tensor α := ⟨[], [t.data.sum / (t.data.length : α)]⟩

/-- Message of the `ValueError` raised by `_reduce` for an invalid mode. -/
def invalidReductionMsg : String := "Invalid reduction. Must be none, mean, or sum."

/-- The shared reduction helper `_reduce(loss, reduction)`. -/
def _reduce (loss : Tensor α) (reduction : String) : Except String (Tensor α) :=
  if reduction = "mean" then .ok (mxMean loss)
  else if reduction = "sum" then .ok (mxSum loss)
  else if reduction = "none" then .ok loss
  else .error invalidReductionMsg

/-- Message of the failed `label_smoothing` assertion in `cross_entropy`. -/
def labelSmoothingMsg : String := "label smoothing must be between 0 and 1 (exclusive)"

/-- Message of the failed leading-shape assertion in `cross_entropy`. -/
def logitsTargetsMsg : String := "The shape of logits and targets must match along axis 0."

/-- Message of the `ValueError` raised for weights of the wrong shape. -/
def weightsShapeMsg : String := "Shape of weights must be the same as shape of targets."

/-- The elementwise cross entropy loss of `cross_entropy` before weights
and reduction: `logsumexp_logits - score` without label smoothing, and
`logsumexp_logits - adjusted_score + smoothed_loss` with it.  All the
intermediate tensors share the shape with the class axis removed, so the
elementwise arithmetic is `zipT`. -/
def ceRawLoss (rexp rlog : α → α) (logits : Tensor α) (targets : Tensor Nat)
    (axis : Int) (label_smoothing : α) : Tensor α :=
  let score := takeAlong logits targets axis
  let logsumexp_logits := logsumexp rexp rlog logits axis
  if 0 < label_smoothing then
    let adjusted_score := score.map fun x => (1 - label_smoothing) * x
    let mean_logits := meanAlong logits axis
    let smoothed_loss := mean_logits.map fun x => -x * label_smoothing
    zipT (· + ·) (zipT (· - ·) logsumexp_logits adjusted_score) smoothed_loss
  else
    zipT (· - ·) logsumexp_logits score

/-- `cross_entropy(logits, targets, weights, axis, label_smoothing, reduction)`. -/
def cross_entropy (rexp rlog : α → α) (logits : Tensor α) (targets : Tensor Nat)
    (weights : Option (Tensor α)) (axis : Int) (label_smoothing : α)
    (reduction : String) : Except String (Tensor α) :=
  if ¬ (0 ≤ label_smoothing ∧ label_smoothing < 1) then .error labelSmoothingMsg
  else if logits.shape.headD 0 ≠ targets.shape.headD 0 then .error logitsTargetsMsg
  else
    let loss := ceRawLoss rexp rlog logits targets axis label_smoothing
    match weights with
    | none => _reduce loss reduction
    | some w =>
      if w.shape ≠ targets.shape then .error weightsShapeMsg
      else do
        let weighted ← ewiseE (· * ·) loss w
        _reduce weighted reduction

/-- `binary_cross_entropy(inputs, targets, reduction)`:
`-targets * mx.log(inputs) - (1 - targets) * mx.log(1 - inputs)`,
elementwise with broadcasting, then the shared reduction. -/
def binary_cross_entropy (rlog : α → α) (inputs targets : Tensor α)
    (reduction : String) : Except String (Tensor α) := do
  let t1 ← ewiseE (· * ·) (targets.map fun x => -x) (inputs.map rlog)
  let t2 ← ewiseE (· * ·) (targets.map fun x => 1 - x) ((inputs.map fun x => 1 - x).map rlog)
  let loss ← ewiseE (· - ·) t1 t2
  _reduce loss reduction

/-- The `BCELoss` module: the only state is the reduction mode stored at
construction. -/
structure BCELoss where
  reduction : String

/-- Calling a `BCELoss` object, as installed by the `_make_loss_module`
decorator: `lambda self, inputs, targets: f(inputs, targets, self.reduction)`
with `f = binary_cross_entropy`. -/
def BCELoss.call (rlog : α → α) (m : BCELoss) (inputs targets : Tensor α) :
    Except String (Tensor α) :=
  binary_cross_entropy rlog inputs targets m.reduction

/-- Following the spec wording for the wrapper object: calling it with
`(inputs, targets)` invokes `binary_cross_entropy` using the stored mode. -/
def specBCECall (rlog : α → α) (reduction : String) (inputs targets : Tensor α) :
    Except String (Tensor α) :=
  binary_cross_entropy rlog inputs targets reduction

/-- Message of the failed shape assertion of `l1_loss` / `mse_loss` /
`smooth_l1_loss` (the Python message interpolates both shapes). -/
def shapeMatchMsg (p t : List Nat) : String :=
  "Shape of predictions " ++ toString p ++ " and targets " ++ toString t ++ " must match"

/-- `l1_loss(predictions, targets, reduction)`. -/
def l1_loss (predictions targets : Tensor α) (reduction : String) :
    Except String (Tensor α) :=
  if predictions.shape ≠ targets.shape then
    .error (shapeMatchMsg predictions.shape targets.shape)
  else
    _reduce ((zipT (· - ·) predictions targets).map fun x => |x|) reduction

/-- `mse_loss(predictions, targets, reduction)`. -/
def mse_loss (predictions targets : Tensor α) (reduction : String) :
    Except String (Tensor α) :=
  if predictions.shape ≠ targets.shape then
    .error (shapeMatchMsg predictions.shape targets.shape)
  else
    _reduce ((zipT (· - ·) predictions targets).map fun x => x ^ 2) reduction

/-- `nll_loss(inputs, targets, axis, reduction)`. -/
def nll_loss (inputs : Tensor α) (targets : Tensor Nat) (axis : Int)
    (reduction : String) : Except String (Tensor α) :=
  _reduce ((takeAlong inputs targets axis).map fun x => -x) reduction

/-- `kl_div_loss(inputs, targets, axis, reduction)`:
`mx.sum(mx.exp(targets) * (targets - inputs), axis)` then the reduction. -/
def kl_div_loss (rexp : α → α) (inputs targets : Tensor α) (axis : Int)
    (reduction : String) : Except String (Tensor α) := do
  let d ← ewiseE (· - ·) targets inputs
  let p ← ewiseE (· * ·) (targets.map rexp) d
  _reduce (sumAlong p axis) reduction

/-- `smooth_l1_loss(predictions, targets, beta, reduction)`.  Note the
branch predicate of the `mx.where` is the signed `diff < beta`, exactly as
in the source. -/
def smooth_l1_loss (predictions targets : Tensor α) (beta : α)
    (reduction : String) : Except String (Tensor α) :=
  if predictions.shape ≠ targets.shape then
    .error (shapeMatchMsg predictions.shape targets.shape)
  else
    let diff := zipT (· - ·) predictions targets
    let loss := diff.map fun d => if d < beta then 1 / 2 * d ^ 2 / beta else |d| - 1 / 2 * beta
    _reduce loss reduction

/-- The elementwise smooth L1 value as the spec states it: the branch is
selected by the absolute difference. -/
def specSmoothL1Elem (beta d : α) : α :=
  if |d| < beta then 1 / 2 * d ^ 2 / beta else |d| - 1 / 2 * beta

/-- The elementwise binary cross entropy tensor exactly as the spec states
it, at the broadcast shape `s`:
`-targets*log(inputs) - (1-targets)*log(1-inputs)` position by position,
with no clamping of the inputs before the logarithms. -/
def specBCETensor (rlog : α → α) (inputs targets : Tensor α) (s : List Nat) : Tensor α :=
  ⟨s, (List.range s.prod).map fun m =>
    -(targets.data.getD (bindex s targets.shape m) 0) *
        rlog (inputs.data.getD (bindex s inputs.shape m) 0) -
      (1 - targets.data.getD (bindex s targets.shape m) 0) *
        rlog (1 - inputs.data.getD (bindex s inputs.shape m) 0)⟩

/-! ### Basic lemmas about the embedding. -/

theorem getD_range_map {β : Type} (f : Nat → β) (n j : Nat) (d : β) (h : j < n) :
    ((List.range n).map f).getD j d = f j := by
  rw [List.getD_eq_getElem?_getD, List.getElem?_map, List.getElem?_range h]
  rfl

theorem getD_of_lt {β : Type} (l : List β) (j : Nat) (d : β) (h : j < l.length) :
    l.getD j d = l[j] := by
  rw [List.getD_eq_getElem?_getD, List.getElem?_eq_getElem h]
  rfl

theorem getD_all_zero {β : Type} [Zero β] (l : List β) (h : ∀ x ∈ l, x = 0) (j : Nat) :
    l.getD j (0 : β) = 0 := by
  rcases Nat.lt_or_ge j l.length with hj | hj
  · rw [getD_of_lt l j 0 hj]
    exact h _ (List.getElem_mem hj)
  · exact List.getD_eq_default l 0 hj

theorem bcompat_refl : ∀ l : List Nat, bcompat l l
  | [] => trivial
  | _ :: l => ⟨Or.inr rfl, bcompat_refl l⟩

theorem bcompat_nil : ∀ l : List Nat, bcompat l []
  | [] => trivial
  | _ :: _ => trivial

theorem bshapeRev_compat :
    ∀ xs ys zs : List Nat, bshapeRev xs ys = some zs → bcompat zs xs ∧ bcompat zs ys
  | [], ys, zs, h => by
    simp only [bshapeRev] at h
    injection h with h
    subst h
    exact ⟨bcompat_nil ys, bcompat_refl ys⟩
  | x :: xs, [], zs, h => by
    simp only [bshapeRev] at h
    injection h with h
    subst h
    exact ⟨bcompat_refl (x :: xs), bcompat_nil (x :: xs)⟩
  | x :: xs, y :: ys, zs, h => by
    unfold bshapeRev at h
    rcases hd : bdim x y with _ | d <;> rw [hd] at h
    · exact Option.noConfusion h
    · rcases hr : bshapeRev xs ys with _ | rest <;> rw [hr] at h
      · exact Option.noConfusion h
      · have h' : some (d :: rest) = some zs := h
        injection h' with h'
        subst h'
        obtain ⟨h1, h2⟩ := bshapeRev_compat xs ys rest hr
        have hx : x = 1 ∨ x = d := by
          unfold bdim at hd
          split_ifs at hd with e1 e2 e3 <;> simp_all
        have hy : y = 1 ∨ y = d := by
          unfold bdim at hd
          split_ifs at hd with e1 e2 e3 <;> simp_all
        exact ⟨⟨hx, h1⟩, ⟨hy, h2⟩⟩

theorem bshape_self (s : List Nat) : bshape s s = some s := by
  have key : ∀ l : List Nat, bshapeRev l l = some l := by
    intro l
    induction l with
    | nil => rfl
    | cons x l ih => simp [bshapeRev, bdim, ih]
  simp [bshape, key s.reverse]

theorem bshape_rev {sa sb s : List Nat} (h : bshape sa sb = some s) :
    bshapeRev sa.reverse sb.reverse = some s.reverse := by
  unfold bshape at h
  rcases hr : bshapeRev sa.reverse sb.reverse with _ | zs <;> rw [hr] at h
  · exact absurd h (by simp)
  · simp only [Option.map_some', Option.some.injEq] at h
    rw [← h, List.reverse_reverse]

theorem bindexRev_self : ∀ (ds : List Nat) (m : Nat), m < ds.prod → bindexRev ds ds m = m
  | [], m, h => by simp [List.prod_nil] at h; simp [bindexRev, h]
  | d :: ds, m, h => by
    have hd : 0 < d := by
      rcases Nat.eq_zero_or_pos d with h0 | h0
      · subst h0; simp at h
      · exact h0
    have hdiv : m / d < ds.prod := by
      rw [Nat.div_lt_iff_lt_mul hd, Nat.mul_comm]
      simpa [List.prod_cons] using h
    have ih := bindexRev_self ds (m / d) hdiv
    simp only [bindexRev, ih]
    rcases eq_or_ne d 1 with h1 | h1
    · subst h1
      simp
    · rw [if_neg h1, Nat.mul_comm (m / d) d]
      exact Nat.div_add_mod m d

theorem bindex_self (s : List Nat) (m : Nat) (h : m < s.prod) : bindex s s m = m := by
  unfold bindex
  exact bindexRev_self s.reverse m (by rwa [List.prod_reverse])

theorem bindexRev_lt :
    ∀ (ds es : List Nat) (m : Nat), bcompat ds es → m < ds.prod → bindexRev ds es m < es.prod
  | _, [], _, _, _ => by simp [bindexRev]
  | [], _ :: _, _, hc, _ => by simp [bcompat] at hc
  | d :: ds, e :: es, m, hc, h => by
    obtain ⟨he, hc'⟩ := hc
    have hd : 0 < d := by
      rcases Nat.eq_zero_or_pos d with h0 | h0
      · subst h0
        simp at h
      · exact h0
    have hdiv : m / d < ds.prod := by
      rw [Nat.div_lt_iff_lt_mul hd, Nat.mul_comm]
      simpa [List.prod_cons] using h
    have ih := bindexRev_lt ds es (m / d) hc' hdiv
    have hce : (if e = 1 then 0 else m % d) < e := by
      rcases eq_or_ne e 1 with h1 | h1
      · rw [if_pos h1, h1]
        omega
      · rw [if_neg h1]
        rcases he with h2 | h2
        · exact absurd h2 h1
        · rw [h2]
          exact Nat.mod_lt m hd
    simp only [bindexRev, List.prod_cons]
    calc bindexRev ds es (m / d) * e + (if e = 1 then 0 else m % d)
        < bindexRev ds es (m / d) * e + e := Nat.add_lt_add_left hce _
      _ = (bindexRev ds es (m / d) + 1) * e := by ring
      _ ≤ es.prod * e := Nat.mul_le_mul_right e ih
      _ = e * es.prod := Nat.mul_comm _ _

theorem bindex_lt_left {sa sb s : List Nat} (h : bshape sa sb = some s)
    (m : Nat) (hm : m < s.prod) : bindex s sa m < sa.prod := by
  have hc := (bshapeRev_compat sa.reverse sb.reverse s.reverse (bshape_rev h)).1
  have := bindexRev_lt s.reverse sa.reverse m hc (by rwa [List.prod_reverse])
  rwa [List.prod_reverse] at this

theorem bindex_lt_right {sa sb s : List Nat} (h : bshape sa sb = some s)
    (m : Nat) (hm : m < s.prod) : bindex s sb m < sb.prod := by
  have hc := (bshapeRev_compat sa.reverse sb.reverse s.reverse (bshape_rev h)).2
  have := bindexRev_lt s.reverse sb.reverse m hc (by rwa [List.prod_reverse])
  rwa [List.prod_reverse] at this

theorem zipT_shape {β : Type} (f : β → β → β) (a b : Tensor β) :
    (zipT f a b).shape = a.shape := rfl

theorem zipT_data_getD {β : Type} [Zero β] (f : β → β → β) (a b : Tensor β) (j : Nat)
    (ha : j < a.data.length) (hb : j < b.data.length) :
    (zipT f a b).data.getD j 0 = f (a.data.getD j 0) (b.data.getD j 0) := by
  have hj : j < (List.zipWith f a.data b.data).length := by
    rw [List.length_zipWith]
    omega
  rw [show (zipT f a b).data = List.zipWith f a.data b.data from rfl,
    getD_of_lt _ _ _ hj, getD_of_lt _ _ _ ha, getD_of_lt _ _ _ hb]
  exact List.getElem_zipWith

theorem map_data_getD {β γ : Type} [Zero β] [Zero γ] (f : β → γ) (t : Tensor β) (j : Nat)
    (h : j < t.data.length) :
    (t.map f).data.getD j 0 = f (t.data.getD j 0) := by
  rw [show (t.map f).data = t.data.map f from rfl,
    getD_of_lt _ _ _ (by simpa using h), getD_of_lt _ _ _ h]
  simp

theorem ewise_eq_zipT {β : Type} [Zero β] (f : β → β → β) (a b : Tensor β)
    (hs : a.shape = b.shape) (ha : a.wf) (hb : b.wf) :
    ewise f a b = some (zipT f a b) := by
  obtain ⟨sa, da⟩ := a
  obtain ⟨sb, db⟩ := b
  simp only [Tensor.wf] at ha hb
  dsimp only at hs ha hb
  subst hs
  unfold ewise zipT
  rw [bshape_self]
  refine congrArg some ?_
  refine congrArg (Tensor.mk sa) ?_
  apply List.ext_getElem
  · rw [List.length_map, List.length_range, List.length_zipWith, ha, hb]
    exact (Nat.min_self _).symm
  · intro i h1 h2
    have hi : i < sa.prod := by simpa using h1
    dsimp only
    rw [List.getElem_map, List.getElem_range,
      bindex_self sa i hi, List.getElem_zipWith,
      getD_of_lt _ _ _ (show i < da.length by rw [ha]; exact hi),
      getD_of_lt _ _ _ (show i < db.length by rw [hb]; exact hi)]

theorem ewiseE_eq_zipT {β : Type} [Zero β] (f : β → β → β) (a b : Tensor β)
    (hs : a.shape = b.shape) (ha : a.wf) (hb : b.wf) :
    ewiseE f a b = .ok (zipT f a b) := by
  unfold ewiseE
  rw [ewise_eq_zipT f a b hs ha hb]

theorem reduceAlong_shape {β : Type} [Zero β] (f : List β → β) (t : Tensor β) (ax : Int) :
    (reduceAlong f t ax).shape =
      t.shape.take (normAxis t.shape.length ax) ++
        t.shape.drop (normAxis t.shape.length ax + 1) := rfl

theorem takeAlong_shape {β : Type} [Zero β] (t : Tensor β) (idx : Tensor Nat) (ax : Int) :
    (takeAlong t idx ax).shape =
      t.shape.take (normAxis t.shape.length ax) ++
        t.shape.drop (normAxis t.shape.length ax + 1) := rfl

theorem takeDrop_eq_eraseIdx (s : List Nat) (k : Nat) :
    s.take k ++ s.drop (k + 1) = s.eraseIdx k :=
  (List.eraseIdx_eq_take_drop_succ s k).symm

theorem prod_take_drop (s : List Nat) (k : Nat) :
    (s.take k ++ s.drop (k + 1)).prod = outerSz s k * innerSz s k := by
  simp [outerSz, innerSz, List.prod_append]

theorem reduceAlong_data_length {β : Type} [Zero β] (f : List β → β) (t : Tensor β) (ax : Int) :
    (reduceAlong f t ax).data.length =
      outerSz t.shape (normAxis t.shape.length ax) *
        innerSz t.shape (normAxis t.shape.length ax) := by
  simp [reduceAlong]

theorem takeAlong_data_length {β : Type} [Zero β] (t : Tensor β) (idx : Tensor Nat) (ax : Int) :
    (takeAlong t idx ax).data.length =
      outerSz t.shape (normAxis t.shape.length ax) *
        innerSz t.shape (normAxis t.shape.length ax) := by
  simp [takeAlong]

theorem reduceAlong_wf {β : Type} [Zero β] (f : List β → β) (t : Tensor β) (ax : Int) :
    (reduceAlong f t ax).wf := by
  simp [Tensor.wf, reduceAlong_shape, reduceAlong_data_length, prod_take_drop, outerSz, innerSz]

theorem takeAlong_wf {β : Type} [Zero β] (t : Tensor β) (idx : Tensor Nat) (ax : Int) :
    (takeAlong t idx ax).wf := by
  simp [Tensor.wf, takeAlong_shape, takeAlong_data_length, prod_take_drop, outerSz, innerSz]

theorem reduceAlong_data_getD {β : Type} [Zero β] (f : List β → β) (t : Tensor β) (ax : Int)
    (j : Nat)
    (h : j < outerSz t.shape (normAxis t.shape.length ax) *
      innerSz t.shape (normAxis t.shape.length ax)) :
    (reduceAlong f t ax).data.getD j 0 =
      f (sliceAt t (normAxis t.shape.length ax)
        (j / innerSz t.shape (normAxis t.shape.length ax))
        (j % innerSz t.shape (normAxis t.shape.length ax))) := by
  unfold reduceAlong
  exact getD_range_map _ _ _ _ h

theorem takeAlong_data_getD {β : Type} [Zero β] (t : Tensor β) (idx : Tensor Nat) (ax : Int)
    (j : Nat)
    (h : j < outerSz t.shape (normAxis t.shape.length ax) *
      innerSz t.shape (normAxis t.shape.length ax)) :
    (takeAlong t idx ax).data.getD j 0 =
      t.data.getD
        (((j / innerSz t.shape (normAxis t.shape.length ax)) *
            dimSz t.shape (normAxis t.shape.length ax) + idx.data.getD j 0) *
          innerSz t.shape (normAxis t.shape.length ax) +
          j % innerSz t.shape (normAxis t.shape.length ax)) 0 := by
  unfold takeAlong
  exact getD_range_map _ _ _ _ h

theorem sliceAt_length {β : Type} [Zero β] (t : Tensor β) (k o i : Nat) :
    (sliceAt t k o i).length = dimSz t.shape k := by
  simp [sliceAt]

theorem zipT_data_length {β : Type} (f : β → β → β) (a b : Tensor β) :
    (zipT f a b).data.length = min a.data.length b.data.length :=
  List.length_zipWith f a.data b.data

theorem map_data_length {β γ : Type} (f : β → γ) (t : Tensor β) :
    (t.map f).data.length = t.data.length :=
  List.length_map t.data f

theorem map_shape {β γ : Type} (f : β → γ) (t : Tensor β) : (t.map f).shape = t.shape := rfl

theorem reduce_none (t : Tensor α) : _reduce t "none" = .ok t := by
  simp [_reduce]

theorem reduce_mean (t : Tensor α) : _reduce t "mean" = .ok (mxMean t) := by
  simp [_reduce]

theorem reduce_sum (t : Tensor α) : _reduce t "sum" = .ok (mxSum t) := by
  simp [_reduce]

theorem reduce_invalid (t : Tensor α) (r : String)
    (h1 : r ≠ "none") (h2 : r ≠ "mean") (h3 : r ≠ "sum") :
    _reduce t r = .error invalidReductionMsg := by
  simp [_reduce, h1, h2, h3]

theorem reduce_ok_iff (t : Tensor α) (r : String) :
    (∃ out, _reduce t r = .ok out) ↔ (r = "none" ∨ r = "mean" ∨ r = "sum") := by
  constructor
  · rintro ⟨out, hout⟩
    by_contra hc
    push_neg at hc
    rw [reduce_invalid t r hc.1 hc.2.1 hc.2.2] at hout
    exact Except.noConfusion hout
  · rintro (h | h | h) <;> subst h
    · exact ⟨t, reduce_none t⟩
    · exact ⟨mxMean t, reduce_mean t⟩
    · exact ⟨mxSum t, reduce_sum t⟩

theorem ewiseE_ok {β : Type} [Zero β] (f : β → β → β) (a b : Tensor β) {s : List Nat}
    (hb : bshape a.shape b.shape = some s) :
    ewiseE f a b = .ok ⟨s, (List.range s.prod).map fun m =>
      f (a.data.getD (bindex s a.shape m) 0) (b.data.getD (bindex s b.shape m) 0)⟩ := by
  unfold ewiseE ewise
  rw [hb]

theorem ceRawLoss_shape (rexp rlog : α → α) (logits : Tensor α) (targets : Tensor Nat)
    (ax : Int) (ε : α) :
    (ceRawLoss rexp rlog logits targets ax ε).shape =
      logits.shape.take (normAxis logits.shape.length ax) ++
        logits.shape.drop (normAxis logits.shape.length ax + 1) := by
  unfold ceRawLoss
  split <;> rfl

theorem ceRawLoss_data_length (rexp rlog : α → α) (logits : Tensor α) (targets : Tensor Nat)
    (ax : Int) (ε : α) :
    (ceRawLoss rexp rlog logits targets ax ε).data.length =
      outerSz logits.shape (normAxis logits.shape.length ax) *
        innerSz logits.shape (normAxis logits.shape.length ax) := by
  unfold ceRawLoss
  split <;>
    simp [zipT, Tensor.map, logsumexp, meanAlong, reduceAlong, takeAlong, List.length_zipWith]

theorem ceRawLoss_wf (rexp rlog : α → α) (logits : Tensor α) (targets : Tensor Nat)
    (ax : Int) (ε : α) :
    (ceRawLoss rexp rlog logits targets ax ε).wf := by
  rw [Tensor.wf, ceRawLoss_shape, ceRawLoss_data_length, prod_take_drop]

theorem map_wf {β γ : Type} (f : β → γ) (t : Tensor β) (h : t.wf) : (t.map f).wf := by
  unfold Tensor.wf at h ⊢
  rw [map_data_length, map_shape]
  exact h

theorem zipT_wf {β : Type} (f : β → β → β) (a b : Tensor β)
    (hs : a.shape = b.shape) (ha : a.wf) (hb : b.wf) : (zipT f a b).wf := by
  unfold Tensor.wf at ha hb ⊢
  rw [zipT_data_length, zipT_shape, ha, hb, hs, Nat.min_self]

theorem except_bind_ok {ε β γ : Type} (x : β) (f : β → Except ε γ) :
    (Except.ok x >>= f : Except ε γ) = f x := rfl

theorem except_bind_error {ε β γ : Type} (e : ε) (f : β → Except ε γ) :
    (Except.error e >>= f : Except ε γ) = Except.error e := rfl

theorem cross_entropy_none_weights (rexp rlog : α → α) (logits : Tensor α)
    (targets : Tensor Nat) (ax : Int) (ε : α) (r : String)
    (hε : 0 ≤ ε ∧ ε < 1) (hsh : logits.shape.headD 0 = targets.shape.headD 0) :
    cross_entropy rexp rlog logits targets none ax ε r =
      _reduce (ceRawLoss rexp rlog logits targets ax ε) r := by
  unfold cross_entropy
  rw [if_neg (not_not_intro hε), if_neg (not_not_intro hsh)]

theorem cross_entropy_some_weights (rexp rlog : α → α) (logits : Tensor α)
    (targets : Tensor Nat) (w : Tensor α) (ax : Int) (ε : α) (r : String)
    (hε : 0 ≤ ε ∧ ε < 1) (hsh : logits.shape.headD 0 = targets.shape.headD 0)
    (hw : w.shape = targets.shape) :
    cross_entropy rexp rlog logits targets (some w) ax ε r =
      (ewiseE (· * ·) (ceRawLoss rexp rlog logits targets ax ε) w >>= fun weighted =>
        _reduce weighted r) := by
  unfold cross_entropy
  rw [if_neg (not_not_intro hε), if_neg (not_not_intro hsh)]
  dsimp only
  rw [if_neg (not_not_intro hw)]

theorem cross_entropy_bad_weights (rexp rlog : α → α) (logits : Tensor α)
    (targets : Tensor Nat) (w : Tensor α) (ax : Int) (ε : α) (r : String)
    (hε : 0 ≤ ε ∧ ε < 1) (hsh : logits.shape.headD 0 = targets.shape.headD 0)
    (hw : w.shape ≠ targets.shape) :
    cross_entropy rexp rlog logits targets (some w) ax ε r = .error weightsShapeMsg := by
  unfold cross_entropy
  rw [if_neg (not_not_intro hε), if_neg (not_not_intro hsh)]
  dsimp only
  rw [if_pos hw]

theorem bce_as_reduce (rlog : α → α) (inputs targets : Tensor α) (r : String)
    {s : List Nat} (hb : bshape targets.shape inputs.shape = some s) :
    ∃ loss : Tensor α, loss.shape = s ∧ loss.wf ∧
      binary_cross_entropy rlog inputs targets r = _reduce loss r := by
  unfold binary_cross_entropy
  rw [ewiseE_ok (· * ·) (targets.map fun x => -x) (inputs.map rlog)
      (show bshape (targets.map fun x => -x).shape (inputs.map rlog).shape = some s from hb),
    except_bind_ok,
    ewiseE_ok (· * ·) (targets.map fun x => 1 - x) ((inputs.map fun x => 1 - x).map rlog)
      (show bshape (targets.map fun x => 1 - x).shape
          ((inputs.map fun x => 1 - x).map rlog).shape = some s from hb),
    except_bind_ok,
    ewiseE_ok (· - ·) _ _ (bshape_self s), except_bind_ok]
  exact ⟨_, rfl, by simp [Tensor.wf], rfl⟩

/-- C1: the claim that the elementwise `smooth_l1_loss` result always
equals the `|diff|`-thresholded formula (equivalently that the signed
predicate `diff < beta` selects the same branch values as `|diff| < beta`)
is false on the code, and the code contradicts its own docstring: at
`predictions = [0]`, `targets = [2]`, `beta = 1` the difference is `-2`,
the code takes the quadratic branch (`-2 < 1`) and returns `2`, while the
documented formula requires the linear branch `|-2| - 0.5 = 3/2`. -/
theorem C1_smooth_l1_signed_branch_bug :
    smooth_l1_loss (⟨[1], [(0 : ℚ)]⟩ : Tensor ℚ) ⟨[1], [2]⟩ 1 "none" = .ok ⟨[1], [2]⟩ ∧
    specSmoothL1Elem (1 : ℚ) (0 - 2) = 3 / 2 ∧ (2 : ℚ) ≠ 3 / 2 := by
  refine ⟨?_, by norm_num [specSmoothL1Elem], by norm_num⟩
  have hlt : ((0 : ℚ) - 2) < 1 := by norm_num
  simp only [smooth_l1_loss, zipT, Tensor.map, List.zipWith_cons_cons, List.zipWith_nil_right,
    List.map_cons, List.map_nil, if_pos hlt, ne_eq]
  norm_num [_reduce]
  simp

/-- C2: the reduction helper returns the tensor unchanged for mode
`"none"`, the scalar mean of all its elements for `"mean"`, the scalar sum
of all its elements for `"sum"`, and fails with the invalid-reduction
error for every other string; exactly these three strings are accepted. -/
theorem C2_reduce_contract (t : Tensor α) (r : String) :
    _reduce t "none" = .ok t ∧
    _reduce t "mean" = .ok ⟨[], [t.data.sum / (t.data.length : α)]⟩ ∧
    _reduce t "sum" = .ok ⟨[], [t.data.sum]⟩ ∧
    (r ≠ "none" → r ≠ "mean" → r ≠ "sum" → _reduce t r = .error invalidReductionMsg) :=
  ⟨reduce_none t, reduce_mean t, reduce_sum t, fun h1 h2 h3 => reduce_invalid t r h1 h2 h3⟩

/-- Witness for C2 at a concrete tensor and the invalid mode `"sgd"`. -/
theorem C2_reduce_contract_witness :
    (("sgd" : String) ≠ "none" ∧ ("sgd" : String) ≠ "mean" ∧ ("sgd" : String) ≠ "sum") ∧
    _reduce (⟨[2], [(1 : ℚ), 3]⟩ : Tensor ℚ) "sgd" = .error invalidReductionMsg :=
  ⟨by decide, (C2_reduce_contract ⟨[2], [(1 : ℚ), 3]⟩ "sgd").2.2.2
    (by decide) (by decide) (by decide)⟩

/-- C7: whenever the shapes of predictions and targets differ at all,
`l1_loss`, `mse_loss` and `smooth_l1_loss` each fail with the
shape-mismatch error (the shape test is exact equality: no broadcasting). -/
theorem C7_shape_mismatch_fails (p t : Tensor α) (beta : α) (r : String)
    (h : p.shape ≠ t.shape) :
    l1_loss p t r = .error (shapeMatchMsg p.shape t.shape) ∧
    mse_loss p t r = .error (shapeMatchMsg p.shape t.shape) ∧
    smooth_l1_loss p t beta r = .error (shapeMatchMsg p.shape t.shape) := by
  refine ⟨?_, ?_, ?_⟩ <;> simp [l1_loss, mse_loss, smooth_l1_loss, h]

/-- Witness for C7 at mismatched concrete shapes. -/
theorem C7_shape_mismatch_fails_witness :
    (([1] : List Nat) ≠ [2]) ∧
    (l1_loss (⟨[1], [(0 : ℚ)]⟩ : Tensor ℚ) ⟨[2], [0, 0]⟩ "mean" =
        .error (shapeMatchMsg [1] [2]) ∧
      mse_loss (⟨[1], [(0 : ℚ)]⟩ : Tensor ℚ) ⟨[2], [0, 0]⟩ "mean" =
        .error (shapeMatchMsg [1] [2]) ∧
      smooth_l1_loss (⟨[1], [(0 : ℚ)]⟩ : Tensor ℚ) ⟨[2], [0, 0]⟩ (1 : ℚ) "mean" =
        .error (shapeMatchMsg [1] [2])) :=
  ⟨by decide, C7_shape_mismatch_fails ⟨[1], [(0 : ℚ)]⟩ ⟨[2], [0, 0]⟩ 1 "mean" (by decide)⟩

/-- C10: `binary_cross_entropy` performs no validation of its array
arguments: for any broadcastable inputs and targets (whatever the values,
also outside `(0, 1)`) it succeeds exactly for the reductions `"none"`,
`"mean"`, `"sum"`; its only error exit is the invalid-reduction branch of
the shared helper. -/
theorem C10_bce_no_input_validation (rlog : α → α) (inputs targets : Tensor α) (r : String)
    {s : List Nat} (hb : bshape targets.shape inputs.shape = some s) :
    (∃ out, binary_cross_entropy rlog inputs targets r = .ok out) ↔
      (r = "none" ∨ r = "mean" ∨ r = "sum") := by
  obtain ⟨loss, -, -, heq⟩ := bce_as_reduce rlog inputs targets r hb
  rw [heq]
  exact reduce_ok_iff loss r

/-- Witness for C10 with an input value `5` far outside `(0, 1)`. -/
theorem C10_bce_no_input_validation_witness :
    bshape ([1] : List Nat) [1] = some [1] ∧
    ((∃ out, binary_cross_entropy id (⟨[1], [(5 : ℚ)]⟩ : Tensor ℚ) ⟨[1], [2]⟩ "mean" = .ok out) ↔
      (("mean" : String) = "none" ∨ ("mean" : String) = "mean" ∨ ("mean" : String) = "sum")) :=
  ⟨by decide, @C10_bce_no_input_validation ℚ _ id ⟨[1], [(5 : ℚ)]⟩ ⟨[1], [2]⟩ "mean" [1]
    (by decide)⟩

/-- C5: with reduction `"none"`, the output shape of `cross_entropy` and
`nll_loss` is the input shape with the (normalized) class axis removed,
for every axis argument; the elementwise losses `l1_loss`, `mse_loss`,
`smooth_l1_loss` preserve the predictions shape, and
`binary_cross_entropy` with targets broadcastable into the inputs shape
preserves the inputs shape. -/
theorem C5_reduction_none_shapes (rexp rlog : α → α) :
    (∀ (logits : Tensor α) (targets : Tensor Nat) (ax : Int) (ε : α) (out : Tensor α),
      cross_entropy rexp rlog logits targets none ax ε "none" = .ok out →
      out.shape = logits.shape.eraseIdx (normAxis logits.shape.length ax)) ∧
    (∀ (logits : Tensor α) (targets : Tensor Nat) (weights : Option (Tensor α)) (ax : Int)
        (ε : α) (out : Tensor α),
      targets.shape = logits.shape.eraseIdx (normAxis logits.shape.length ax) →
      cross_entropy rexp rlog logits targets weights ax ε "none" = .ok out →
      out.shape = logits.shape.eraseIdx (normAxis logits.shape.length ax)) ∧
    (∀ (inputs : Tensor α) (targets : Tensor Nat) (ax : Int) (out : Tensor α),
      nll_loss inputs targets ax "none" = .ok out →
      out.shape = inputs.shape.eraseIdx (normAxis inputs.shape.length ax)) ∧
    (∀ (p t out : Tensor α), l1_loss p t "none" = .ok out → out.shape = p.shape) ∧
    (∀ (p t out : Tensor α), mse_loss p t "none" = .ok out → out.shape = p.shape) ∧
    (∀ (p t : Tensor α) (beta : α) (out : Tensor α),
      smooth_l1_loss p t beta "none" = .ok out → out.shape = p.shape) ∧
    (∀ (inputs targets out : Tensor α),
      bshape targets.shape inputs.shape = some inputs.shape →
      binary_cross_entropy rlog inputs targets "none" = .ok out →
      out.shape = inputs.shape) := by
  refine ⟨?_, ?_, ?_, ?_, ?_, ?_, ?_⟩
  · intro logits targets ax ε out h
    unfold cross_entropy at h
    split_ifs at h with h1 h2
    · dsimp only at h
      rw [reduce_none] at h
      injection h with h
      subst h
      rw [ceRawLoss_shape, takeDrop_eq_eraseIdx]
  · intro logits targets weights ax ε out htgt h
    unfold cross_entropy at h
    split_ifs at h with h1 h2
    · cases weights with
      | none =>
        dsimp only at h
        rw [reduce_none] at h
        injection h with h
        subst h
        rw [ceRawLoss_shape, takeDrop_eq_eraseIdx]
      | some w =>
        dsimp only at h
        split_ifs at h with h3
        have h4 : w.shape = targets.shape := not_not.mp h3
        have hls : (ceRawLoss rexp rlog logits targets ax ε).shape = w.shape := by
          rw [ceRawLoss_shape, takeDrop_eq_eraseIdx, ← htgt, h4]
        have hb : bshape (ceRawLoss rexp rlog logits targets ax ε).shape w.shape =
            some w.shape := by
          rw [hls]
          exact bshape_self w.shape
        rw [ewiseE_ok (· * ·) _ _ hb, except_bind_ok, reduce_none] at h
        injection h with h
        subst h
        show w.shape = logits.shape.eraseIdx (normAxis logits.shape.length ax)
        rw [h4, htgt]
  · intro inputs targets ax out h
    unfold nll_loss at h
    rw [reduce_none] at h
    injection h with h
    subst h
    rw [map_shape, takeAlong_shape, takeDrop_eq_eraseIdx]
  · intro p t out h
    unfold l1_loss at h
    split_ifs at h with h1
    · rw [reduce_none] at h
      injection h with h
      subst h
      rfl
  · intro p t out h
    unfold mse_loss at h
    split_ifs at h with h1
    · rw [reduce_none] at h
      injection h with h
      subst h
      rfl
  · intro p t beta out h
    unfold smooth_l1_loss at h
    split_ifs at h with h1
    · rw [reduce_none] at h
      injection h with h
      subst h
      rfl
  · intro inputs targets out hb h
    obtain ⟨loss, hshape, -, heq⟩ := bce_as_reduce rlog inputs targets "none" hb
    rw [heq, reduce_none] at h
    injection h with h
    subst h
    exact hshape

/-- Witness for C5, exercising the weighted `cross_entropy`, `nll_loss`
and `l1_loss` conjuncts at concrete inputs. -/
theorem C5_reduction_none_shapes_witness :
    (([1] : List Nat) = ([1, 2] : List Nat).eraseIdx (normAxis 2 (-1)) ∧
      cross_entropy id id (⟨[1, 2], [(0 : ℚ), 0]⟩ : Tensor ℚ) ⟨[1], [0]⟩
          (some ⟨[1], [1]⟩) (-1) 0 "none" =
        .ok (zipT (· * ·)
          (ceRawLoss id id (⟨[1, 2], [(0 : ℚ), 0]⟩ : Tensor ℚ) ⟨[1], [0]⟩ (-1) 0)
          ⟨[1], [1]⟩) ∧
      (zipT (· * ·)
          (ceRawLoss id id (⟨[1, 2], [(0 : ℚ), 0]⟩ : Tensor ℚ) ⟨[1], [0]⟩ (-1) 0)
          (⟨[1], [(1 : ℚ)]⟩ : Tensor ℚ)).shape =
        ([1, 2] : List Nat).eraseIdx (normAxis 2 (-1))) ∧
    (nll_loss (⟨[1, 1], [(5 : ℚ)]⟩ : Tensor ℚ) ⟨[1], [0]⟩ (-1) "none" =
        .ok ⟨[1], [-(5 : ℚ)]⟩ ∧
      (⟨[1], [-(5 : ℚ)]⟩ : Tensor ℚ).shape = ([1, 1] : List Nat).eraseIdx (normAxis 2 (-1))) ∧
    (l1_loss (⟨[1], [(0 : ℚ)]⟩ : Tensor ℚ) ⟨[1], [0]⟩ "none" = .ok ⟨[1], [|(0 : ℚ) - 0|]⟩ ∧
      (⟨[1], [|(0 : ℚ) - 0|]⟩ : Tensor ℚ).shape = [1]) := by
  have h0 : cross_entropy id id (⟨[1, 2], [(0 : ℚ), 0]⟩ : Tensor ℚ) ⟨[1], [0]⟩
      (some ⟨[1], [1]⟩) (-1) 0 "none" =
      .ok (zipT (· * ·)
        (ceRawLoss id id (⟨[1, 2], [(0 : ℚ), 0]⟩ : Tensor ℚ) ⟨[1], [0]⟩ (-1) 0)
        ⟨[1], [1]⟩) := by
    rw [cross_entropy_some_weights id id (⟨[1, 2], [(0 : ℚ), 0]⟩ : Tensor ℚ) ⟨[1], [0]⟩
        ⟨[1], [1]⟩ (-1) 0 "none" ⟨le_refl 0, by norm_num⟩ (by decide) (by decide),
      ewiseE_eq_zipT (· * ·)
        (ceRawLoss id id (⟨[1, 2], [(0 : ℚ), 0]⟩ : Tensor ℚ) ⟨[1], [0]⟩ (-1) 0)
        (⟨[1], [(1 : ℚ)]⟩ : Tensor ℚ)
        (by rw [ceRawLoss_shape]; decide)
        (ceRawLoss_wf id id (⟨[1, 2], [(0 : ℚ), 0]⟩ : Tensor ℚ) ⟨[1], [0]⟩ (-1) 0) rfl,
      except_bind_ok, reduce_none]
  have h2 : nll_loss (⟨[1, 1], [(5 : ℚ)]⟩ : Tensor ℚ) ⟨[1], [0]⟩ (-1) "none" =
      .ok ⟨[1], [-(5 : ℚ)]⟩ := by
    simp [nll_loss, takeAlong, Tensor.map, _reduce, normAxis, outerSz, dimSz, innerSz,
      List.range_succ]
  have h1 : l1_loss (⟨[1], [(0 : ℚ)]⟩ : Tensor ℚ) ⟨[1], [0]⟩ "none" =
      .ok ⟨[1], [|(0 : ℚ) - 0|]⟩ := by
    simp [l1_loss, zipT, Tensor.map, _reduce]
  exact ⟨⟨by decide, h0, (@C5_reduction_none_shapes ℚ _ id id).2.1 _ _ _ _ _ _ (by decide) h0⟩,
    ⟨h2, (@C5_reduction_none_shapes ℚ _ id id).2.2.1 _ _ _ _ h2⟩,
    ⟨h1, (@C5_reduction_none_shapes ℚ _ id id).2.2.2.1 _ _ _ h1⟩⟩

/-- C3: under the preconditions, `cross_entropy` with `reduction = "none"`
and no weights returns the elementwise loss tensor whose entry at every
flat position `j` equals
`logsumexp(logits, axis) - (1-ε)·gathered_score - ε·mean(logits, axis)`
at that position — which for `ε = 0` is `logsumexp - gathered_score`. -/
theorem C3_cross_entropy_formula (rexp rlog : α → α) (logits : Tensor α)
    (targets : Tensor Nat) (ax : Int) (ε : α) (j : Nat)
    (hε : 0 ≤ ε ∧ ε < 1)
    (hsh : logits.shape.headD 0 = targets.shape.headD 0)
    (hj : j < outerSz logits.shape (normAxis logits.shape.length ax) *
      innerSz logits.shape (normAxis logits.shape.length ax)) :
    cross_entropy rexp rlog logits targets none ax ε "none" =
      .ok (ceRawLoss rexp rlog logits targets ax ε) ∧
    (ceRawLoss rexp rlog logits targets ax ε).data.getD j 0 =
      rlog (((sliceAt logits (normAxis logits.shape.length ax)
            (j / innerSz logits.shape (normAxis logits.shape.length ax))
            (j % innerSz logits.shape (normAxis logits.shape.length ax))).map rexp).sum)
        - (1 - ε) * logits.data.getD
            ((j / innerSz logits.shape (normAxis logits.shape.length ax) *
                dimSz logits.shape (normAxis logits.shape.length ax) +
              targets.data.getD j 0) *
              innerSz logits.shape (normAxis logits.shape.length ax) +
              j % innerSz logits.shape (normAxis logits.shape.length ax)) 0
        - ε * ((sliceAt logits (normAxis logits.shape.length ax)
            (j / innerSz logits.shape (normAxis logits.shape.length ax))
            (j % innerSz logits.shape (normAxis logits.shape.length ax))).sum /
            (dimSz logits.shape (normAxis logits.shape.length ax) : α)) := by
  refine ⟨by
    rw [cross_entropy_none_weights rexp rlog logits targets ax ε "none" hε hsh,
      reduce_none], ?_⟩
  have hlse : j < (logsumexp rexp rlog logits ax).data.length := by
    simp only [logsumexp]
    rw [reduceAlong_data_length]
    exact hj
  have hscore : j < (takeAlong logits targets ax).data.length := by
    rw [takeAlong_data_length]
    exact hj
  have hmean : j < (meanAlong logits ax).data.length := by
    simp only [meanAlong]
    rw [reduceAlong_data_length]
    exact hj
  simp only [ceRawLoss]
  by_cases hpos : 0 < ε
  · rw [if_pos hpos,
      zipT_data_getD _ _ _ j
        (by
          rw [zipT_data_length]
          exact lt_min hlse (by rw [map_data_length]; exact hscore))
        (by rw [map_data_length]; exact hmean),
      zipT_data_getD _ _ _ j hlse (by rw [map_data_length]; exact hscore),
      map_data_getD _ _ j hscore, map_data_getD _ _ j hmean]
    simp only [logsumexp, meanAlong]
    rw [reduceAlong_data_getD _ _ _ j hj, reduceAlong_data_getD _ _ _ j hj,
      takeAlong_data_getD _ _ _ j hj, sliceAt_length]
    ring
  · have hε0 : ε = 0 := le_antisymm (not_lt.mp hpos) hε.1
    subst hε0
    rw [if_neg hpos, zipT_data_getD _ _ _ j hlse hscore]
    simp only [logsumexp]
    rw [reduceAlong_data_getD _ _ _ j hj, takeAlong_data_getD _ _ _ j hj]
    ring

/-- Witness for C3 at a 1-by-2 logits tensor, target class 0, the default
axis, no smoothing, position 0. -/
theorem C3_cross_entropy_formula_witness :
    ((0 : ℚ) ≤ 0 ∧ (0 : ℚ) < 1) ∧
    (([1, 2] : List Nat).headD 0 = ([1] : List Nat).headD 0) ∧
    0 < outerSz [1, 2] (normAxis 2 (-1)) * innerSz [1, 2] (normAxis 2 (-1)) ∧
    (cross_entropy id id (⟨[1, 2], [(0 : ℚ), 0]⟩ : Tensor ℚ) ⟨[1], [0]⟩ none (-1) 0 "none" =
        .ok (ceRawLoss id id (⟨[1, 2], [(0 : ℚ), 0]⟩ : Tensor ℚ) ⟨[1], [0]⟩ (-1) 0) ∧
      (ceRawLoss id id (⟨[1, 2], [(0 : ℚ), 0]⟩ : Tensor ℚ) ⟨[1], [0]⟩ (-1) 0).data.getD 0 0 =
        id (((sliceAt (⟨[1, 2], [(0 : ℚ), 0]⟩ : Tensor ℚ) (normAxis 2 (-1))
              (0 / innerSz [1, 2] (normAxis 2 (-1)))
              (0 % innerSz [1, 2] (normAxis 2 (-1)))).map id).sum)
          - (1 - 0) * ([(0 : ℚ), 0] : List ℚ).getD
              ((0 / innerSz [1, 2] (normAxis 2 (-1)) * dimSz [1, 2] (normAxis 2 (-1)) +
                ([0] : List Nat).getD 0 0) *
                innerSz [1, 2] (normAxis 2 (-1)) +
                0 % innerSz [1, 2] (normAxis 2 (-1))) 0
          - 0 * ((sliceAt (⟨[1, 2], [(0 : ℚ), 0]⟩ : Tensor ℚ) (normAxis 2 (-1))
              (0 / innerSz [1, 2] (normAxis 2 (-1)))
              (0 % innerSz [1, 2] (normAxis 2 (-1)))).sum /
              (dimSz [1, 2] (normAxis 2 (-1)) : ℚ))) :=
  ⟨⟨le_refl 0, by norm_num⟩, by decide, by decide,
    @C3_cross_entropy_formula ℚ _ id id ⟨[1, 2], [(0 : ℚ), 0]⟩ ⟨[1], [0]⟩ (-1) 0 0
      ⟨le_refl 0, by norm_num⟩ (by decide) (by decide)⟩

/-- C6: with reduction `"none"`, `kl_div_loss` computes per batch position
the sum over the axis of `exp(targets) · (targets − inputs)`; and when
`inputs` equals `targets` the resulting loss is zero everywhere. -/
theorem C6_kl_div_formula (rexp : α → α) (inputs targets : Tensor α) (ax : Int)
    (hs : inputs.shape = targets.shape) (hi : inputs.wf) (ht : targets.wf) :
    kl_div_loss rexp inputs targets ax "none" =
      .ok (sumAlong (⟨targets.shape, (List.range targets.shape.prod).map fun m =>
        rexp (targets.data.getD m 0) * (targets.data.getD m 0 - inputs.data.getD m 0)⟩ :
        Tensor α) ax) ∧
    (inputs = targets → ∀ out : Tensor α,
      kl_div_loss rexp inputs targets ax "none" = .ok out → ∀ x ∈ out.data, x = 0) := by
  have hdata : List.zipWith (· * ·) (targets.data.map rexp)
      (List.zipWith (· - ·) targets.data inputs.data) =
      (List.range targets.shape.prod).map fun m =>
        rexp (targets.data.getD m 0) * (targets.data.getD m 0 - inputs.data.getD m 0) := by
    apply List.ext_getElem
    · rw [List.length_zipWith, List.length_map, List.length_zipWith, List.length_map,
        List.length_range, hi, ht, hs]
      simp
    · intro n h1 h2
      have hn : n < targets.shape.prod := by simpa using h2
      have hnt : n < targets.data.length := by
        rw [ht]
        exact hn
      have hni : n < inputs.data.length := by
        rw [hi, hs]
        exact hn
      simp only [List.getElem_zipWith, List.getElem_map, List.getElem_range]
      rw [getD_of_lt targets.data n 0 hnt, getD_of_lt inputs.data n 0 hni]
  have key : kl_div_loss rexp inputs targets ax "none" =
      .ok (sumAlong (⟨targets.shape, (List.range targets.shape.prod).map fun m =>
        rexp (targets.data.getD m 0) * (targets.data.getD m 0 - inputs.data.getD m 0)⟩ :
        Tensor α) ax) := by
    unfold kl_div_loss
    rw [ewiseE_eq_zipT (· - ·) targets inputs hs.symm ht hi, except_bind_ok,
      ewiseE_eq_zipT (· * ·) (targets.map rexp) (zipT (· - ·) targets inputs) rfl
        (map_wf rexp targets ht) (zipT_wf (· - ·) targets inputs hs.symm ht hi),
      except_bind_ok,
      show zipT (· * ·) (targets.map rexp) (zipT (· - ·) targets inputs) =
        (⟨targets.shape, (List.range targets.shape.prod).map fun m =>
          rexp (targets.data.getD m 0) *
            (targets.data.getD m 0 - inputs.data.getD m 0)⟩ : Tensor α) from
        congrArg (Tensor.mk targets.shape) hdata,
      reduce_none]
  refine ⟨key, ?_⟩
  rintro rfl out hout
  rw [key] at hout
  injection hout with hout
  subst hout
  intro x hx
  simp only [sumAlong, reduceAlong] at hx
  obtain ⟨m, -, hfm⟩ := List.mem_map.mp hx
  rw [← hfm]
  apply List.sum_eq_zero
  intro y hy
  obtain ⟨jj, -, hgy⟩ := List.mem_map.mp hy
  rw [← hgy]
  apply getD_all_zero
  intro z hz
  obtain ⟨mm, -, hz2⟩ := List.mem_map.mp hz
  rw [← hz2]
  simp

/-- Witness for C6 at identical one-element log-distributions. -/
theorem C6_kl_div_formula_witness :
    (⟨[1], [(7 : ℚ)]⟩ : Tensor ℚ).shape = (⟨[1], [(7 : ℚ)]⟩ : Tensor ℚ).shape ∧
    (⟨[1], [(7 : ℚ)]⟩ : Tensor ℚ).wf ∧
    (kl_div_loss id (⟨[1], [(7 : ℚ)]⟩ : Tensor ℚ) ⟨[1], [7]⟩ (-1) "none" =
        .ok (sumAlong (⟨[1], (List.range (([1] : List Nat).prod)).map fun m =>
          id (([(7 : ℚ)] : List ℚ).getD m 0) *
            (([(7 : ℚ)] : List ℚ).getD m 0 - ([(7 : ℚ)] : List ℚ).getD m 0)⟩ : Tensor ℚ) (-1)) ∧
      ((⟨[1], [(7 : ℚ)]⟩ : Tensor ℚ) = ⟨[1], [7]⟩ → ∀ out : Tensor ℚ,
        kl_div_loss id (⟨[1], [(7 : ℚ)]⟩ : Tensor ℚ) ⟨[1], [7]⟩ (-1) "none" = .ok out →
        ∀ x ∈ out.data, x = 0)) :=
  ⟨rfl, rfl,
    @C6_kl_div_formula ℚ _ id ⟨[1], [(7 : ℚ)]⟩ ⟨[1], [7]⟩ (-1) rfl rfl rfl⟩

theorem ewiseE_rangeMap {β : Type} [Zero β] (f : β → β → β) (s : List Nat)
    (g1 g2 : Nat → β) :
    ewiseE f ⟨s, (List.range s.prod).map g1⟩ ⟨s, (List.range s.prod).map g2⟩ =
      .ok (zipT f ⟨s, (List.range s.prod).map g1⟩ ⟨s, (List.range s.prod).map g2⟩) :=
  ewiseE_eq_zipT f _ _ rfl (by simp [Tensor.wf]) (by simp [Tensor.wf])

/-- C8: for broadcastable well-formed inputs and targets,
`binary_cross_entropy` with reduction `"none"` returns elementwise exactly
`−targets·log(inputs) − (1−targets)·log(1−inputs)` (the log is applied to
the raw inputs — no clamping before the logarithms). -/
theorem C8_bce_elementwise (rlog : α → α) (inputs targets : Tensor α) {s : List Nat}
    (hb : bshape targets.shape inputs.shape = some s)
    (hi : inputs.wf) (ht : targets.wf) :
    binary_cross_entropy rlog inputs targets "none" =
      .ok (specBCETensor rlog inputs targets s) := by
  have hm1 : ∀ m : Nat, m < s.prod → bindex s targets.shape m < targets.data.length := by
    intro m hm
    rw [ht]
    exact bindex_lt_left hb m hm
  have hm2 : ∀ m : Nat, m < s.prod → bindex s inputs.shape m < inputs.data.length := by
    intro m hm
    rw [hi]
    exact bindex_lt_right hb m hm
  have hdata : List.zipWith (· - ·)
      ((List.range s.prod).map fun m =>
        (targets.map fun x => -x).data.getD (bindex s targets.shape m) 0 *
          (inputs.map rlog).data.getD (bindex s inputs.shape m) 0)
      ((List.range s.prod).map fun m =>
        (targets.map fun x => 1 - x).data.getD (bindex s targets.shape m) 0 *
          ((inputs.map fun x => 1 - x).map rlog).data.getD (bindex s inputs.shape m) 0) =
      (List.range s.prod).map fun m =>
        -(targets.data.getD (bindex s targets.shape m) 0) *
            rlog (inputs.data.getD (bindex s inputs.shape m) 0) -
          (1 - targets.data.getD (bindex s targets.shape m) 0) *
            rlog (1 - inputs.data.getD (bindex s inputs.shape m) 0) := by
    rw [List.zipWith_map, List.zipWith_same]
    apply List.map_eq_map_iff.mpr
    intro m hm
    have hm' : m < s.prod := List.mem_range.mp hm
    rw [map_data_getD _ _ _ (hm1 m hm'), map_data_getD _ _ _ (hm2 m hm'),
      map_data_getD _ _ _ (hm1 m hm'),
      map_data_getD _ _ _ (show bindex s inputs.shape m <
        (inputs.map fun x => 1 - x).data.length by
          rw [map_data_length]
          exact hm2 m hm'),
      map_data_getD _ _ _ (hm2 m hm')]
  unfold binary_cross_entropy
  rw [ewiseE_ok (· * ·) (targets.map fun x => -x) (inputs.map rlog)
      (show bshape (targets.map fun x => -x).shape (inputs.map rlog).shape = some s from hb),
    except_bind_ok,
    ewiseE_ok (· * ·) (targets.map fun x => 1 - x) ((inputs.map fun x => 1 - x).map rlog)
      (show bshape (targets.map fun x => 1 - x).shape
          ((inputs.map fun x => 1 - x).map rlog).shape = some s from hb),
    except_bind_ok,
    ewiseE_rangeMap (· - ·) s _ _, except_bind_ok, reduce_none]
  exact congrArg Except.ok (congrArg (Tensor.mk s) hdata)

/-- Witness for C8 at one-element tensors whose input value 5 lies far
outside `(0, 1)`. -/
theorem C8_bce_elementwise_witness :
    bshape ([1] : List Nat) [1] = some [1] ∧
    (⟨[1], [(5 : ℚ)]⟩ : Tensor ℚ).wf ∧ (⟨[1], [(2 : ℚ)]⟩ : Tensor ℚ).wf ∧
    binary_cross_entropy id (⟨[1], [(5 : ℚ)]⟩ : Tensor ℚ) ⟨[1], [2]⟩ "none" =
      .ok (specBCETensor id (⟨[1], [(5 : ℚ)]⟩ : Tensor ℚ) ⟨[1], [2]⟩ [1]) :=
  ⟨by decide, rfl, rfl,
    @C8_bce_elementwise ℚ _ id ⟨[1], [(5 : ℚ)]⟩ ⟨[1], [2]⟩ [1] (by decide) rfl rfl⟩

/-- C4: with well-formed targets (their shape is the logits shape with the
normalized class axis removed), `cross_entropy` fails exactly when
`label_smoothing` lies outside `[0, 1)`, or the leading dimensions of
logits and targets differ, or weights are given with a shape different
from the targets shape, or the reduction string is not one of
none/mean/sum; and when none of these hold and weights are given, the
result is the elementwise loss multiplied elementwise by the weights
before the reduction is applied. -/
theorem C4_cross_entropy_error_contract (rexp rlog : α → α) (logits : Tensor α)
    (targets : Tensor Nat) (weights : Option (Tensor α)) (ax : Int) (ε : α) (r : String)
    (htgt : targets.shape = logits.shape.eraseIdx (normAxis logits.shape.length ax)) :
    ((∃ e, cross_entropy rexp rlog logits targets weights ax ε r = .error e) ↔
      (¬ (0 ≤ ε ∧ ε < 1) ∨ logits.shape.headD 0 ≠ targets.shape.headD 0 ∨
        (∃ w, weights = some w ∧ w.shape ≠ targets.shape) ∨
        ¬ (r = "none" ∨ r = "mean" ∨ r = "sum"))) ∧
    (∀ w, weights = some w → w.wf → (0 ≤ ε ∧ ε < 1) →
      logits.shape.headD 0 = targets.shape.headD 0 → w.shape = targets.shape →
      cross_entropy rexp rlog logits targets weights ax ε r =
        _reduce (zipT (· * ·) (ceRawLoss rexp rlog logits targets ax ε) w) r) := by
  constructor
  · constructor
    · rintro ⟨e, he⟩
      by_contra hc
      push_neg at hc
      obtain ⟨hε, hsh, hwgood, hr⟩ := hc
      cases weights with
      | none =>
        rw [cross_entropy_none_weights rexp rlog logits targets ax ε r hε hsh] at he
        obtain ⟨out, hout⟩ :=
          (reduce_ok_iff (ceRawLoss rexp rlog logits targets ax ε) r).mpr hr
        rw [hout] at he
        exact Except.noConfusion he
      | some w =>
        have hw := hwgood w rfl
        rw [cross_entropy_some_weights rexp rlog logits targets w ax ε r hε hsh hw] at he
        have hls : (ceRawLoss rexp rlog logits targets ax ε).shape = w.shape := by
          rw [ceRawLoss_shape, takeDrop_eq_eraseIdx, ← htgt, hw]
        have hb : bshape (ceRawLoss rexp rlog logits targets ax ε).shape w.shape =
            some w.shape := by
          rw [hls]
          exact bshape_self w.shape
        rw [ewiseE_ok (· * ·) _ _ hb, except_bind_ok] at he
        rcases hr with h | h | h <;> subst h
        · rw [reduce_none] at he
          exact Except.noConfusion he
        · rw [reduce_mean] at he
          exact Except.noConfusion he
        · rw [reduce_sum] at he
          exact Except.noConfusion he
    · rintro (h | h | h | h)
      · exact ⟨labelSmoothingMsg, by unfold cross_entropy; rw [if_pos h]⟩
      · by_cases hA : 0 ≤ ε ∧ ε < 1
        · exact ⟨logitsTargetsMsg, by
            unfold cross_entropy
            rw [if_neg (not_not_intro hA), if_pos h]⟩
        · exact ⟨labelSmoothingMsg, by unfold cross_entropy; rw [if_pos hA]⟩
      · obtain ⟨w, rfl, hwne⟩ := h
        by_cases hA : 0 ≤ ε ∧ ε < 1
        · by_cases hB : logits.shape.headD 0 = targets.shape.headD 0
          · exact ⟨weightsShapeMsg,
              cross_entropy_bad_weights rexp rlog logits targets w ax ε r hA hB hwne⟩
          · exact ⟨logitsTargetsMsg, by
              unfold cross_entropy
              rw [if_neg (not_not_intro hA), if_pos hB]⟩
        · exact ⟨labelSmoothingMsg, by unfold cross_entropy; rw [if_pos hA]⟩
      · push_neg at h
        obtain ⟨h1, h2, h3⟩ := h
        by_cases hA : 0 ≤ ε ∧ ε < 1
        · by_cases hB : logits.shape.headD 0 = targets.shape.headD 0
          · cases weights with
            | none =>
              refine ⟨invalidReductionMsg, ?_⟩
              rw [cross_entropy_none_weights rexp rlog logits targets ax ε r hA hB]
              exact reduce_invalid _ r h1 h2 h3
            | some w =>
              by_cases hw : w.shape = targets.shape
              · refine ⟨invalidReductionMsg, ?_⟩
                rw [cross_entropy_some_weights rexp rlog logits targets w ax ε r hA hB hw]
                have hls : (ceRawLoss rexp rlog logits targets ax ε).shape = w.shape := by
                  rw [ceRawLoss_shape, takeDrop_eq_eraseIdx, ← htgt, hw]
                have hb : bshape (ceRawLoss rexp rlog logits targets ax ε).shape w.shape =
                    some w.shape := by
                  rw [hls]
                  exact bshape_self w.shape
                rw [ewiseE_ok (· * ·) _ _ hb, except_bind_ok]
                exact reduce_invalid _ r h1 h2 h3
              · exact ⟨weightsShapeMsg,
                  cross_entropy_bad_weights rexp rlog logits targets w ax ε r hA hB hw⟩
          · exact ⟨logitsTargetsMsg, by
              unfold cross_entropy
              rw [if_neg (not_not_intro hA), if_pos hB]⟩
        · exact ⟨labelSmoothingMsg, by unfold cross_entropy; rw [if_pos hA]⟩
  · rintro w rfl hww hε hsh hw
    rw [cross_entropy_some_weights rexp rlog logits targets w ax ε r hε hsh hw]
    have hls : (ceRawLoss rexp rlog logits targets ax ε).shape = w.shape := by
      rw [ceRawLoss_shape, takeDrop_eq_eraseIdx, ← htgt, hw]
    rw [ewiseE_eq_zipT (· * ·) _ w hls (ceRawLoss_wf rexp rlog logits targets ax ε) hww,
      except_bind_ok]

/-- Witness for C4, exercising the weighted success case of a
`cross_entropy` call at concrete inputs. -/
theorem C4_cross_entropy_error_contract_witness :
    (([1] : List Nat) = ([1, 2] : List Nat).eraseIdx (normAxis 2 (-1))) ∧
    cross_entropy id id (⟨[1, 2], [(0 : ℚ), 0]⟩ : Tensor ℚ) ⟨[1], [0]⟩
        (some ⟨[1], [1]⟩) (-1) 0 "none" =
      _reduce (zipT (· * ·)
        (ceRawLoss id id (⟨[1, 2], [(0 : ℚ), 0]⟩ : Tensor ℚ) ⟨[1], [0]⟩ (-1) 0)
        ⟨[1], [1]⟩) "none" :=
  ⟨by decide,
    (@C4_cross_entropy_error_contract ℚ _ id id ⟨[1, 2], [(0 : ℚ), 0]⟩ ⟨[1], [0]⟩
      (some ⟨[1], [1]⟩) (-1) 0 "none" (by decide)).2 ⟨[1], [1]⟩ rfl rfl
      ⟨le_refl 0, by norm_num⟩ (by decide) (by decide)⟩

/-- C9: a `BCELoss` object constructed with reduction `r` behaves on
`(inputs, targets)` exactly as `binary_cross_entropy inputs targets r`
(and as the spec-side description of the wrapper): the wrapper carries no
state beyond the stored reduction mode. -/
theorem C9_bceloss_is_binary_cross_entropy (rlog : α → α) (r : String)
    (inputs targets : Tensor α) :
    (BCELoss.mk r).call rlog inputs targets = binary_cross_entropy rlog inputs targets r ∧
    (BCELoss.mk r).call rlog inputs targets = specBCECall rlog r inputs targets :=
  ⟨rfl, rfl⟩

end MlxLosses
